import Mathlib

/-!
Shallow embedding of the moonlit editor's document core (src/document.rs).

The rope (the external `ropey` crate) is modelled as a `List Char` with the
character/line/byte arithmetic the document code relies on.  Operations that
can panic in Rust (out-of-bounds rope indices, `line_to_char` past the line
count) return `Option`, with `none` standing for a panic.  Two ghost
instrumentation fields are added to `Document` — `reparseCount` counts calls
of `reparse`, `errors` counts reported errors (the `eprintln!` in
`insert_text`) — so that "no reparse was triggered" and "an error was
reported" are statable; neither influences any other field.

The line-terminator model is a lone LF (`'\n'`), the only terminator
occurring in the repository's claims and scenarios; `ropey`'s additional
Unicode terminators are orthogonal to every statement proved here.
-/

namespace Moonlit

/-- UTF-8 encoded size of one scalar value, as `ropey` counts bytes. -/
def charUtf8Size (c : Char) : Nat :=
  if c.val < 0x80 then 1
  else if c.val < 0x800 then 2
  else if c.val < 0x10000 then 3
  else 4

/-- Embeds `Rope::len_chars`: length in Unicode scalar values. -/
def lenChars (cs : List Char) : Nat := cs.length

/-- Embeds `Rope::len_bytes`: length in UTF-8 bytes. -/
def lenBytes (cs : List Char) : Nat := (cs.map charUtf8Size).sum

/-- Embeds `Rope::len_lines`: number of line terminators plus one. -/
def lenLines (cs : List Char) : Nat := 1 + cs.countP (fun c => c = '\n')

/-- Character index of the start of line `y` (total helper; meaningful for
`y ≤ lenLines`, where line `lenLines` starts one past the end). -/
def lineStart : List Char → Nat → Nat
  | _, 0 => 0
  | [], _ + 1 => 0
  | c :: rest, y + 1 =>
    if c = '\n' then 1 + lineStart rest y else 1 + lineStart rest (y + 1)

/-- Embeds `Rope::line_to_char`: char index of the start of line `y`;
panics (`none`) when `y > len_lines`, and `line_to_char (len_lines)` is the
one-past-the-end char index. -/
def lineToChar (cs : List Char) (y : Nat) : Option Nat :=
  if y > lenLines cs then none else some (lineStart cs y)

/-- Length in chars of line `y` including its terminator, as
`rope.line(y).len_chars()` reports it (meaningful for `y < lenLines`). -/
def lineLenWithTerm (cs : List Char) (y : Nat) : Nat :=
  lineStart cs (y + 1) - lineStart cs y

/-- Length in chars of line `y` excluding its terminator: the end-of-line
column of that line. -/
def lineLenNoTerm (cs : List Char) (y : Nat) : Nat :=
  let s := (cs.drop (lineStart cs y)).take (lineLenWithTerm cs y)
  if s.getLast? = some '\n' then s.length - 1 else s.length

/-- Embeds `Rope::insert_char`: insert one char before `charIdx`;
panics (`none`) when `charIdx > len_chars`. -/
def ropeInsertChar (cs : List Char) (charIdx : Nat) (ch : Char) :
    Option (List Char) :=
  if charIdx > lenChars cs then none
  else some (cs.take charIdx ++ ch :: cs.drop charIdx)

/-- Embeds `Rope::insert`: insert a string before `charIdx`;
panics (`none`) when `charIdx > len_chars`. -/
def ropeInsert (cs : List Char) (charIdx : Nat) (text : List Char) :
    Option (List Char) :=
  if charIdx > lenChars cs then none
  else some (cs.take charIdx ++ text ++ cs.drop charIdx)

/-- Embeds `Rope::remove (a..b)`: delete the half-open char range;
panics (`none`) when the range is invalid or past the end. -/
def ropeRemove (cs : List Char) (a b : Nat) : Option (List Char) :=
  if a > b then none
  else if b > lenChars cs then none
  else some (cs.take a ++ cs.drop b)

/-- Embeds `Rope::chunk_at_byte(u).0` for a rope held in a single chunk (the case
for every rope in this development): panics (`none`) when `u > len_bytes`,
otherwise returns the chunk containing byte `u` — the whole text here. -/
def chunkAtByte (cs : List Char) (u : Nat) : Option (List Char) :=
  if u > lenBytes cs then none else some cs

/-- The text-lookup closure `Document::reparse` hands to
`Parser::parse_with`: empty text strictly past the end, the chunk at `u`
otherwise. -/
def textLookup (cs : List Char) (u : Nat) : Option (List Char) :=
  if u > lenBytes cs then some [] else chunkAtByte cs u

/-- Embeds `Cursor`: a column/row position in character space. -/
structure Cursor where
  x : Nat
  y : Nat
  deriving DecidableEq

/-- Embeds `Cursor::newline`. -/
def Cursor.newline (c : Cursor) : Cursor := { x := 0, y := c.y + 1 }

/-- Embeds `Cursor::move_left`: saturating decrement of `x`. -/
def Cursor.moveLeft (c : Cursor) : Cursor :=
  if c.x > 0 then { c with x := c.x - 1 } else c

/-- Embeds `Cursor::move_right`: unconditional increment of `x`. -/
def Cursor.moveRight (c : Cursor) : Cursor := { c with x := c.x + 1 }

/-- Embeds `Cursor::move_up`: decrements `y` (callers guard `y > 0`). -/
def Cursor.moveUp (c : Cursor) : Cursor := { x := 0, y := c.y - 1 }

/-- Embeds `Cursor::move_down`. -/
def Cursor.moveDown (c : Cursor) : Cursor := { x := 0, y := c.y + 1 }

/-- Embeds `Edit`: one recorded edit (insert/delete/group). -/
inductive Edit where
  | insert (charIdx : Nat) (ch : Char) (point : Cursor)
  | delete (charIdx : Nat) (ch : Char) (point : Cursor)
  | group (count : Nat)
  deriving DecidableEq

/-- Embeds `AllocRingBuffer<Edit>`: fixed-capacity ring, oldest entry first in
`data`; pushing onto a full ring evicts the oldest entry. -/
structure RingBuf where
  capacity : Nat
  data : List Edit
  deriving DecidableEq

/-- Embeds `AllocRingBuffer::with_capacity`. -/
def RingBuf.withCapacity (cap : Nat) : RingBuf := { capacity := cap, data := [] }

/-- Embeds `RingBufferWrite::push`: append, evicting the oldest entry when full. -/
def RingBuf.push (rb : RingBuf) (e : Edit) : RingBuf :=
  if rb.data.length < rb.capacity then { rb with data := rb.data ++ [e] }
  else { rb with data := rb.data.tail ++ [e] }

/-- Push a whole list of edits, oldest first. -/
def RingBuf.pushAll (rb : RingBuf) (es : List Edit) : RingBuf :=
  es.foldl RingBuf.push rb

/-- The parse tree is opaque to the document core; `Nat` stands in for it. -/
abbrev Tree := Nat

/-- The incremental-parse oracle (`Parser::parse_with`): consumes the
byte-offset text lookup and the previously retained tree, returns the new
tree (or `none`, as tree-sitter may). -/
abbrev Oracle := (Nat → Option (List Char)) → Option Tree → Option Tree

/-- An oracle used to instantiate concrete runs; documents in those runs
have no parser configured, so it is never consulted. -/
def defaultOracle : Oracle := fun _ t => t

/-- Embeds `Document`: rope + cursor + optional parser + retained tree + edit
history.  `parser` and `highlighter` record whether those optional
collaborators are configured; `reparseCount` and `errors` are ghost
instrumentation (see the file comment). -/
structure Document where
  rope : List Char
  cursor : Cursor
  parser : Bool
  tree : Option Tree
  highlighter : Bool
  edits : RingBuf
  reparseCount : Nat
  errors : Nat
  deriving DecidableEq

/-- Embeds `Document::from_str`. -/
def Document.from_str (s : String) : Document :=
  { rope := s.toList
    cursor := { x := 0, y := 0 }
    parser := false
    tree := none
    highlighter := false
    edits := RingBuf.withCapacity (32 * 32)
    reparseCount := 0
    errors := 0 }

/-- Embeds `Document::from_reader`, for a reader whose content decodes to `s`. -/
def Document.from_reader (s : String) : Document :=
  { rope := s.toList
    cursor := { x := 0, y := 0 }
    parser := false
    tree := none
    highlighter := false
    edits := RingBuf.withCapacity (16 * 16)
    reparseCount := 0
    errors := 0 }

/-- Embeds `Document::reparse`: when a parser is configured, hand the oracle the
text lookup and the retained tree and replace the tree with the result;
otherwise a no-op.  The ghost counter records the call either way. -/
def Document.reparse (oracle : Oracle) (d : Document) : Document :=
  let d := { d with reparseCount := d.reparseCount + 1 }
  if d.parser then { d with tree := oracle (textLookup d.rope) d.tree } else d

/-- Embeds `Document::insert_char`: compute the absolute index from the cursor,
advance the cursor (newline-aware), insert, reparse.  `none` is a panic of
`line_to_char` or `insert_char`. -/
def Document.insert_char (oracle : Oracle) (d : Document) (ch : Char) :
    Option Document :=
  match lineToChar d.rope d.cursor.y with
  | none => none
  | some s =>
    let charIdx := s + d.cursor.x
    let cursor :=
      if ch = '\n' then d.cursor.newline else { d.cursor with x := d.cursor.x + 1 }
    match ropeInsertChar d.rope charIdx ch with
    | none => none
    | some rope =>
      some (Document.reparse oracle { d with rope := rope, cursor := cursor })

/-- Embeds `Document::newline`. -/
def Document.newline (oracle : Oracle) (d : Document) : Option Document :=
  d.insert_char oracle '\n'

/-- One step of `insert_text`'s per-character loop: record the edit at the
pre-advance cursor, then advance the cursor. -/
def insertTextStep (charIdx : Nat) (acc : Cursor × RingBuf) (ch : Char) :
    Cursor × RingBuf :=
  let eds := acc.2.push (Edit.insert charIdx ch acc.1)
  if ch = '\n' then (acc.1.newline, eds) else ({ acc.1 with x := acc.1.x + 1 }, eds)

/-- Embeds `Document::insert_text`: reject (log + return, no mutation) when the
computed index exceeds the char length; otherwise record one edit per
character while advancing the cursor, bulk-insert, reparse. -/
def Document.insert_text (oracle : Oracle) (d : Document) (text : String) :
    Option Document :=
  match lineToChar d.rope d.cursor.y with
  | none => none
  | some s =>
    let charIdx := s + d.cursor.x
    if charIdx > lenChars d.rope then
      some { d with errors := d.errors + 1 }
    else
      let acc := text.toList.foldl (insertTextStep charIdx) (d.cursor, d.edits)
      match ropeInsert d.rope charIdx text.toList with
      | none => none
      | some rope =>
        some (Document.reparse oracle
          { d with rope := rope, cursor := acc.1, edits := acc.2 })

/-- Embeds `Document::remove_char`: delete the char before the computed index when
it is positive, move the cursor left, reparse either way. -/
def Document.remove_char (oracle : Oracle) (d : Document) : Option Document :=
  match lineToChar d.rope d.cursor.y with
  | none => none
  | some s =>
    let charIdx := s + d.cursor.x
    if charIdx > 0 then
      match ropeRemove d.rope (charIdx - 1) charIdx with
      | none => none
      | some rope =>
        some (Document.reparse oracle
          { d with rope := rope, cursor := d.cursor.moveLeft })
    else some (Document.reparse oracle d)

/-- Embeds `Document::move_cursor_down`: guarded by `len_lines > y`. -/
def Document.move_cursor_down (d : Document) : Document :=
  if lenLines d.rope > d.cursor.y then { d with cursor := d.cursor.moveDown } else d

/-- Embeds `Document::move_cursor_up`: guarded by `y > 0`. -/
def Document.move_cursor_up (d : Document) : Document :=
  if d.cursor.y > 0 then { d with cursor := d.cursor.moveUp } else d

/-- Embeds `Document::move_cursor_left`: decrement `x`, or at column 0 of a later
line drop to the previous line at column 0. -/
def Document.move_cursor_left (d : Document) : Document :=
  if d.cursor.x > 0 then { d with cursor := d.cursor.moveLeft }
  else if d.cursor.y > 0 then { d with cursor := { x := 0, y := d.cursor.y - 1 } }
  else d

/-- Embeds `Document::move_cursor_right`: no-op at or past the last line, else
increment `x` while it is below the line's char length (terminator
included). -/
def Document.move_cursor_right (d : Document) : Document :=
  if d.cursor.y ≥ lenLines d.rope then d
  else if d.cursor.x < lineLenWithTerm d.rope d.cursor.y then
    { d with cursor := d.cursor.moveRight }
  else d

/-- One public mutation of a `Document`; a panicking call (`none`) yields
no step. -/
inductive Step (oracle : Oracle) : Document → Document → Prop where
  | insertChar {d d' : Document} {ch : Char} :
      d.insert_char oracle ch = some d' → Step oracle d d'
  | insertText {d d' : Document} {t : String} :
      d.insert_text oracle t = some d' → Step oracle d d'
  | removeChar {d d' : Document} :
      d.remove_char oracle = some d' → Step oracle d d'
  | newline {d d' : Document} :
      d.newline oracle = some d' → Step oracle d d'
  | moveLeft (d : Document) : Step oracle d d.move_cursor_left
  | moveRight (d : Document) : Step oracle d d.move_cursor_right
  | moveUp (d : Document) : Step oracle d d.move_cursor_up
  | moveDown (d : Document) : Step oracle d d.move_cursor_down

/-- Reachable document states: a constructor result followed by any
sequence of public mutations. -/
inductive Reachable (oracle : Oracle) : Document → Prop where
  | fromStr (s : String) : Reachable oracle (Document.from_str s)
  | fromReader (s : String) : Reachable oracle (Document.from_reader s)
  | step {d d' : Document} :
      Reachable oracle d → Step oracle d d' → Reachable oracle d'

/-- Both fields of a document agree with those of another except for the
cursor: the frame left untouched by pure cursor movement. -/
def cursorOnlyFrame (a b : Document) : Prop :=
  b.rope = a.rope ∧ b.edits = a.edits ∧ b.tree = a.tree ∧
  b.parser = a.parser ∧ b.highlighter = a.highlighter ∧
  b.reparseCount = a.reparseCount ∧ b.errors = a.errors

/-- The document reached from `from_str "ab"` by one `move_cursor_down`
followed by `insert_char 'x'`: its computed absolute cursor index is 4 on a
3-character rope. -/
def badDoc : Document :=
  { rope := ['a', 'b', 'x']
    cursor := { x := 1, y := 1 }
    parser := false
    tree := none
    highlighter := false
    edits := RingBuf.withCapacity (32 * 32)
    reparseCount := 1
    errors := 0 }

lemma insert_char_reaches_badDoc :
    ((Document.from_str "ab").move_cursor_down).insert_char defaultOracle 'x' =
      some badDoc := by decide

lemma badDoc_reachable : Reachable defaultOracle badDoc :=
  Reachable.step
    (Reachable.step (Reachable.fromStr "ab")
      (Step.moveDown (Document.from_str "ab")))
    (Step.insertChar insert_char_reaches_badDoc)

lemma reparse_edits (oracle : Oracle) (d : Document) :
    (Document.reparse oracle d).edits = d.edits := by
  simp only [Document.reparse]
  split <;> rfl

lemma RingBuf.push_capacity (rb : RingBuf) (e : Edit) :
    (rb.push e).capacity = rb.capacity := by
  unfold RingBuf.push
  split <;> rfl

lemma RingBuf.push_length (rb : RingBuf) (e : Edit)
    (hcap : 0 < rb.capacity) (hlen : rb.data.length ≤ rb.capacity) :
    (rb.push e).data.length = min rb.capacity (rb.data.length + 1) := by
  unfold RingBuf.push
  split
  · next hlt =>
    simp only [List.length_append, List.length_cons, List.length_nil]
    omega
  · next hge =>
    have hdne : rb.data ≠ [] := by
      intro hnil
      rw [hnil] at hge
      simp at hge
      omega
    simp only [List.length_append, List.length_cons, List.length_nil,
      List.length_tail]
    omega

lemma RingBuf.push_length_le (rb : RingBuf) (e : Edit)
    (hcap : 0 < rb.capacity) (hlen : rb.data.length ≤ rb.capacity) :
    (rb.push e).data.length ≤ (rb.push e).capacity := by
  rw [RingBuf.push_capacity, RingBuf.push_length rb e hcap hlen]
  omega

lemma RingBuf.push_data (rb : RingBuf) (e : Edit)
    (hcap : 0 < rb.capacity) (hlen : rb.data.length ≤ rb.capacity) :
    (rb.push e).data = (rb.data ++ [e]).drop (rb.data.length + 1 - rb.capacity) := by
  unfold RingBuf.push
  split
  · next hlt =>
    have hz : rb.data.length + 1 - rb.capacity = 0 := by omega
    rw [hz, List.drop_zero]
  · next hge =>
    have heq : rb.data.length = rb.capacity := by omega
    have hdne : rb.data ≠ [] := by
      intro hnil
      rw [hnil] at heq
      simp at heq
      omega
    have hone : rb.data.length + 1 - rb.capacity = 1 := by omega
    rw [hone, List.drop_one]
    obtain ⟨a, t, hat⟩ := List.exists_cons_of_ne_nil hdne
    rw [hat]
    simp

/-- Pushing a list of edits keeps the suffix that fits: the result's data is
the concatenation of old data and new edits, with everything beyond the
capacity dropped from the front. -/
lemma RingBuf.pushAll_data (es : List Edit) (rb : RingBuf)
    (hcap : 0 < rb.capacity) (hlen : rb.data.length ≤ rb.capacity) :
    (rb.pushAll es).data =
      (rb.data ++ es).drop (rb.data.length + es.length - rb.capacity) := by
  induction es generalizing rb with
  | nil =>
    have hz : rb.data.length - rb.capacity = 0 := by omega
    simp [RingBuf.pushAll, hz]
  | cons e es ih =>
    have hstep : rb.pushAll (e :: es) = (rb.push e).pushAll es := rfl
    rw [hstep, ih (rb.push e)
      (by rw [RingBuf.push_capacity]; exact hcap)
      (RingBuf.push_length_le rb e hcap hlen)]
    rw [RingBuf.push_capacity, RingBuf.push_length rb e hcap hlen,
      RingBuf.push_data rb e hcap hlen]
    rcases Nat.lt_or_ge rb.data.length rb.capacity with hlt | hge
    · have h1 : rb.data.length + 1 - rb.capacity = 0 := by omega
      have h2 : min rb.capacity (rb.data.length + 1) = rb.data.length + 1 := by omega
      rw [h1, h2, List.drop_zero, List.append_assoc, List.singleton_append]
      have h3 : rb.data.length + 1 + es.length =
          rb.data.length + (e :: es).length := by
        simp only [List.length_cons]
        omega
      rw [h3]
    · have heq : rb.data.length = rb.capacity := by omega
      have h1 : rb.data.length + 1 - rb.capacity = 1 := by omega
      have h2 : min rb.capacity (rb.data.length + 1) = rb.capacity := by omega
      rw [h1, h2]
      have hdne : rb.data ≠ [] := by
        intro hnil
        rw [hnil] at heq
        simp at heq
        omega
      obtain ⟨a, t, hat⟩ := List.exists_cons_of_ne_nil hdne
      rw [hat]
      have h3 : rb.capacity + es.length - rb.capacity = es.length := by omega
      have h4 : List.drop 1 ((a :: t) ++ [e]) = t ++ [e] := by simp
      rw [h4, h3]
      have h5 : (a :: t).length + (e :: es).length - rb.capacity = es.length + 1 := by
        rw [hat] at heq
        simp only [List.length_cons] at heq ⊢
        omega
      rw [h5]
      have h6 : (a :: t) ++ e :: es = a :: (t ++ e :: es) := by simp
      rw [h6, List.drop_succ_cons, List.append_assoc, List.singleton_append]

lemma RingBuf.pushAll_of_empty (cap : Nat) (es : List Edit) (hcap : 0 < cap) :
    ((RingBuf.withCapacity cap).pushAll es).data = es.drop (es.length - cap) := by
  rw [RingBuf.pushAll_data es (RingBuf.withCapacity cap) hcap (by simp [RingBuf.withCapacity])]
  simp [RingBuf.withCapacity]

lemma insertTextStep_snd (charIdx : Nat) (acc : Cursor × RingBuf) (ch : Char) :
    (insertTextStep charIdx acc ch).2 =
      acc.2.push (Edit.insert charIdx ch acc.1) := by
  simp only [insertTextStep]
  split <;> rfl

lemma foldl_insertTextStep_length (cs : List Char) (charIdx : Nat) :
    ∀ (cur : Cursor) (rb : RingBuf),
      0 < rb.capacity → rb.data.length ≤ rb.capacity →
      (cs.foldl (insertTextStep charIdx) (cur, rb)).2.data.length =
        min rb.capacity (rb.data.length + cs.length) := by
  induction cs with
  | nil =>
    intro cur rb hcap hlen
    simp only [List.foldl_nil, List.length_nil, Nat.add_zero]
    omega
  | cons c cs ih =>
    intro cur rb hcap hlen
    rw [List.foldl_cons]
    rcases hstep : insertTextStep charIdx (cur, rb) c with ⟨cur2, rb2⟩
    have hsnd := insertTextStep_snd charIdx (cur, rb) c
    rw [hstep] at hsnd
    simp only at hsnd
    rw [ih cur2 rb2
      (by rw [hsnd, RingBuf.push_capacity]; exact hcap)
      (by rw [hsnd]; exact RingBuf.push_length_le rb _ hcap hlen)]
    rw [hsnd, RingBuf.push_capacity, RingBuf.push_length rb _ hcap hlen]
    simp only [List.length_cons]
    omega

lemma insert_char_edits (oracle : Oracle) (d d' : Document) (ch : Char)
    (h : d.insert_char oracle ch = some d') : d'.edits = d.edits := by
  unfold Document.insert_char at h
  cases h1 : lineToChar d.rope d.cursor.y with
  | none => rw [h1] at h; exact absurd h (by simp)
  | some s =>
    rw [h1] at h
    simp only at h
    cases h2 : ropeInsertChar d.rope (s + d.cursor.x) ch with
    | none => rw [h2] at h; exact absurd h (by simp)
    | some rope =>
      rw [h2] at h
      simp only [Option.some.injEq] at h
      rw [← h, reparse_edits]

lemma remove_char_edits (oracle : Oracle) (d d' : Document)
    (h : d.remove_char oracle = some d') : d'.edits = d.edits := by
  unfold Document.remove_char at h
  cases h1 : lineToChar d.rope d.cursor.y with
  | none => rw [h1] at h; exact absurd h (by simp)
  | some s =>
    rw [h1] at h
    simp only at h
    by_cases h2 : s + d.cursor.x > 0
    · rw [if_pos h2] at h
      cases h3 : ropeRemove d.rope (s + d.cursor.x - 1) (s + d.cursor.x) with
      | none => rw [h3] at h; exact absurd h (by simp)
      | some rope =>
        rw [h3] at h
        simp only [Option.some.injEq] at h
        rw [← h, reparse_edits]
    · rw [if_neg h2] at h
      simp only [Option.some.injEq] at h
      rw [← h, reparse_edits]

lemma insert_text_edits_length (oracle : Oracle) (d d' : Document)
    (t : String) (s : Nat)
    (h1 : lineToChar d.rope d.cursor.y = some s)
    (h2 : s + d.cursor.x ≤ lenChars d.rope)
    (hcap : 0 < d.edits.capacity)
    (hlen : d.edits.data.length ≤ d.edits.capacity)
    (h : d.insert_text oracle t = some d') :
    d'.edits.data.length =
      min d.edits.capacity (d.edits.data.length + t.toList.length) := by
  unfold Document.insert_text at h
  rw [h1] at h
  simp only at h
  rw [if_neg (by omega)] at h
  have hins : ropeInsert d.rope (s + d.cursor.x) t.toList =
      some (d.rope.take (s + d.cursor.x) ++ t.toList ++ d.rope.drop (s + d.cursor.x)) := by
    unfold ropeInsert
    rw [if_neg (by omega)]
  rw [hins] at h
  simp only [Option.some.injEq] at h
  rw [← h, reparse_edits]
  exact foldl_insertTextStep_length t.toList (s + d.cursor.x) d.cursor d.edits hcap hlen

/-- Result of `insert_char 'a'` on the empty document. -/
def insertCharResult : Document :=
  { rope := ['a']
    cursor := { x := 1, y := 0 }
    parser := false
    tree := none
    highlighter := false
    edits := RingBuf.withCapacity (32 * 32)
    reparseCount := 1
    errors := 0 }

/-- Result of `newline` on the empty document. -/
def newlineResult : Document :=
  { rope := ['\n']
    cursor := { x := 0, y := 1 }
    parser := false
    tree := none
    highlighter := false
    edits := RingBuf.withCapacity (32 * 32)
    reparseCount := 1
    errors := 0 }

/-- Result of `remove_char` on `from_str "a"` (cursor at the origin, so the
rope is untouched and only a reparse happens). -/
def removeCharResult : Document :=
  { rope := ['a']
    cursor := { x := 0, y := 0 }
    parser := false
    tree := none
    highlighter := false
    edits := RingBuf.withCapacity (32 * 32)
    reparseCount := 1
    errors := 0 }

/-- Result of `insert_text "ab"` on the empty document: one recorded edit
per inserted character. -/
def insertTextResult : Document :=
  { rope := ['a', 'b']
    cursor := { x := 2, y := 0 }
    parser := false
    tree := none
    highlighter := false
    edits := { capacity := 32 * 32
               data := [Edit.insert 0 'a' { x := 0, y := 0 },
                        Edit.insert 0 'b' { x := 1, y := 0 }] }
    reparseCount := 1
    errors := 0 }

/-- A document state with a column far beyond the end of its (empty) line,
exercising the out-of-bounds branch of `insert_text`. -/
def oobDoc : Document :=
  { Document.from_str "" with cursor := { x := 5, y := 0 } }

/-- The document `from_str "a\nb"` after `move_cursor_down`: cursor at
column 0 of line 1. -/
def lineStartDoc : Document := (Document.from_str "a\nb").move_cursor_down

/-- C1: the spec's failure contract — every mutation with a malformed
computed index degrades to a no-op plus a reported error and never crashes
— is broken by the code: `insert_char` has no bounds check, and in the
reachable state `badDoc` (reached from `from_str "ab"` by
`move_cursor_down` then `insert_char 'x'`) its computed index
`line_to_char(1) + 1 = 4` exceeds the rope length 3, so
`Rope::insert_char` panics (`none`). -/
theorem insert_char_panics_on_reachable_state :
    Reachable defaultOracle badDoc ∧
    badDoc.insert_char defaultOracle 'y' = none :=
  ⟨badDoc_reachable, by decide⟩

/-- C2: the cursor invariant `y < number of lines` after any completed
mutation fails: from `from_str "ab"` (one line), a single
`move_cursor_down` completes and leaves `cursor.y = 1 = len_lines`,
because the guard in `move_cursor_down` compares with `len_lines > y`
instead of `len_lines > y + 1`. -/
theorem move_cursor_down_violates_row_invariant :
    Reachable defaultOracle ((Document.from_str "ab").move_cursor_down) ∧
    ¬ ((Document.from_str "ab").move_cursor_down.cursor.y <
        lenLines (Document.from_str "ab").move_cursor_down.rope) :=
  ⟨Reachable.step (Reachable.fromStr "ab")
    (Step.moveDown (Document.from_str "ab")), by decide⟩

/-- C3: index consistency — `line_to_char(cursor.y) + cursor.x ≤ len_chars`
for every reachable state — fails: in the reachable state `badDoc` the
computed absolute position is `3 + 1 = 4` on a 3-character buffer. -/
theorem reachable_state_violates_index_consistency :
    Reachable defaultOracle badDoc ∧
    lineToChar badDoc.rope badDoc.cursor.y = some 3 ∧
    lenChars badDoc.rope < 3 + badDoc.cursor.x :=
  ⟨badDoc_reachable, by decide, by decide⟩

/-- C4: whenever `insert_text`'s computed absolute character index exceeds
the buffer's character length, the operation is rejected: the rope, the
cursor and the edit history are all left exactly as they were, and one
error is reported (ghost `errors` counter). -/
theorem insert_text_rejects_out_of_bounds_index
    (oracle : Oracle) (d : Document) (text : String) (s : Nat)
    (h1 : lineToChar d.rope d.cursor.y = some s)
    (h2 : s + d.cursor.x > lenChars d.rope) :
    d.insert_text oracle text = some { d with errors := d.errors + 1 } := by
  unfold Document.insert_text
  rw [h1]
  simp only
  rw [if_pos h2]

/-- Witness for C4 at a concrete out-of-bounds state: inserting `"x"` into
`oobDoc` (empty rope, cursor column 5) is rejected with everything but the
error count unchanged. -/
theorem insert_text_rejects_out_of_bounds_index_witness :
    oobDoc.insert_text defaultOracle "x" =
      some { oobDoc with errors := oobDoc.errors + 1 } :=
  insert_text_rejects_out_of_bounds_index defaultOracle oobDoc "x" 0
    (by decide) (by decide)

/-- C5 counterexample: the claim says the lookup returns an empty slice for
every offset at or past the byte length, but the code's guard is strict
(`u > len_bytes`), so at `u = len_bytes` of the 2-byte rope `"ab"` the
lookup returns the final chunk `"ab"`, not the empty slice. -/
theorem text_lookup_at_end_not_empty :
    lenBytes ['a', 'b'] = 2 ∧
    textLookup ['a', 'b'] 2 ≠ some [] := by
  constructor <;> decide

/-- C5 amended: the text-lookup callback never panics (it is total, always
`some`), and it returns an empty slice for every byte offset strictly
greater than the document's byte length; at exactly the byte length it
returns the chunk there instead. -/
theorem text_lookup_total_and_empty_past_end (cs : List Char) (u : Nat) :
    (∃ r, textLookup cs u = some r) ∧
    (lenBytes cs < u → textLookup cs u = some []) := by
  unfold textLookup chunkAtByte
  by_cases h : u > lenBytes cs
  · rw [if_pos h]
    exact ⟨⟨[], rfl⟩, fun _ => rfl⟩
  · rw [if_neg h, if_neg h]
    exact ⟨⟨cs, rfl⟩, fun hlt => absurd hlt (by omega)⟩

/-- Witness for C5 amended at offset 3 of the 1-byte rope `"a"`. -/
theorem text_lookup_total_and_empty_past_end_witness :
    (∃ r, textLookup ['a'] 3 = some r) ∧ textLookup ['a'] 3 = some [] :=
  ⟨(text_lookup_total_and_empty_past_end ['a'] 3).1,
   (text_lookup_total_and_empty_past_end ['a'] 3).2 (by decide)⟩

/-- C6 counterexample: the claim says each character inserted by
`insert_char` pushes one `Edit`, but inserting `'a'` into the empty
document mutates the rope while leaving the edit history empty —
`insert_char` (and hence `newline`) and `remove_char` never touch
`self.edits` in the source. -/
theorem insert_char_records_no_edit :
    ((Document.from_str "").insert_char defaultOracle 'a').map
        (fun d => d.rope) = some ['a'] ∧
    ((Document.from_str "").insert_char defaultOracle 'a').map
        (fun d => d.edits.data) = some [] := by
  constructor <;> decide

/-- C6 amended: `Edit` records are appended only by `insert_text` — one
`Insert` per character of the inserted text (bounded by the ring's
capacity) — while `insert_char`, `remove_char` and `newline` leave the
edit history untouched. -/
theorem edits_recorded_only_by_insert_text :
    (∀ (oracle : Oracle) (d d' : Document) (ch : Char),
      d.insert_char oracle ch = some d' → d'.edits = d.edits) ∧
    (∀ (oracle : Oracle) (d d' : Document),
      d.remove_char oracle = some d' → d'.edits = d.edits) ∧
    (∀ (oracle : Oracle) (d d' : Document),
      d.newline oracle = some d' → d'.edits = d.edits) ∧
    (∀ (oracle : Oracle) (d d' : Document) (t : String) (s : Nat),
      lineToChar d.rope d.cursor.y = some s →
      s + d.cursor.x ≤ lenChars d.rope →
      0 < d.edits.capacity →
      d.edits.data.length ≤ d.edits.capacity →
      d.insert_text oracle t = some d' →
      d'.edits.data.length =
        min d.edits.capacity (d.edits.data.length + t.toList.length)) :=
  ⟨insert_char_edits,
   remove_char_edits,
   fun oracle d d' h => insert_char_edits oracle d d' '\n' h,
   insert_text_edits_length⟩

/-- Witness for C6 amended: the four mutations evaluated on concrete
documents — `insert_char`, `remove_char` and `newline` preserve the (empty)
history, and `insert_text "ab"` grows it by two. -/
theorem edits_recorded_only_by_insert_text_witness :
    insertCharResult.edits = (Document.from_str "").edits ∧
    removeCharResult.edits = (Document.from_str "a").edits ∧
    newlineResult.edits = (Document.from_str "").edits ∧
    insertTextResult.edits.data.length =
      min (Document.from_str "").edits.capacity
        ((Document.from_str "").edits.data.length + "ab".toList.length) :=
  ⟨edits_recorded_only_by_insert_text.1 defaultOracle
      (Document.from_str "") insertCharResult 'a' (by decide),
   edits_recorded_only_by_insert_text.2.1 defaultOracle
      (Document.from_str "a") removeCharResult (by decide),
   edits_recorded_only_by_insert_text.2.2.1 defaultOracle
      (Document.from_str "") newlineResult (by decide),
   edits_recorded_only_by_insert_text.2.2.2 defaultOracle
      (Document.from_str "") insertTextResult "ab" 0
      (by decide) (by decide) (by decide) (by decide) (by decide)⟩

/-- C7 counterexample: with the buffer `"a\nb"` and the cursor at column 0
of line 1, `move_cursor_left` lands at column 0 of line 0 — not at the
previous line's end-of-line column 1 (its length in characters). -/
theorem move_cursor_left_lands_at_column_zero :
    lineStartDoc.cursor = { x := 0, y := 1 } ∧
    lineStartDoc.move_cursor_left.cursor = { x := 0, y := 0 } ∧
    lineLenNoTerm lineStartDoc.rope 0 = 1 ∧
    lineStartDoc.move_cursor_left.cursor.x ≠ lineLenNoTerm lineStartDoc.rope 0 ∧
    lineStartDoc.move_cursor_left.cursor.x ≠ lineLenWithTerm lineStartDoc.rope 0 := by
  refine ⟨?_, ?_, ?_, ?_, ?_⟩ <;> decide

/-- C7 amended: for every document whose cursor is at column 0 of a line
with index greater than 0, `move_cursor_left` moves the cursor up to the
previous line at column 0 (not its end-of-line), leaving the buffer — and
every other field — unchanged. -/
theorem move_cursor_left_at_column_zero
    (d : Document) (h1 : d.cursor.x = 0) (h2 : 0 < d.cursor.y) :
    d.move_cursor_left = { d with cursor := { x := 0, y := d.cursor.y - 1 } } := by
  unfold Document.move_cursor_left
  rw [if_neg (by omega), if_pos h2]

/-- Witness for C7 amended at the concrete state `lineStartDoc`. -/
theorem move_cursor_left_at_column_zero_witness :
    lineStartDoc.move_cursor_left =
      { lineStartDoc with cursor := { x := 0, y := lineStartDoc.cursor.y - 1 } } :=
  move_cursor_left_at_column_zero lineStartDoc (by decide) (by decide)

/-- C8: the string constructor sizes the edit ring at 32×32 = 1024 and the
reader constructor at 16×16 = 256, and the ring retains exactly the
most-recent edits that fit: after pushing any list of edits onto a fresh
history, what remains is that list with everything before the last
`capacity` entries dropped (so for more pushes than the capacity, exactly
the `capacity` most-recent survive and all older ones are gone). -/
theorem edit_history_capacities_and_retention (s : String) (es : List Edit) :
    (Document.from_str s).edits.capacity = 32 * 32 ∧
    (Document.from_reader s).edits.capacity = 16 * 16 ∧
    ((Document.from_str s).edits.pushAll es).data =
      es.drop (es.length - 32 * 32) ∧
    ((Document.from_reader s).edits.pushAll es).data =
      es.drop (es.length - 16 * 16) :=
  ⟨rfl, rfl,
   RingBuf.pushAll_of_empty (32 * 32) es (by norm_num),
   RingBuf.pushAll_of_empty (16 * 16) es (by norm_num)⟩

/-- C9 (Scenario A): from the empty document, inserting `'H'`, `'i'`,
`'\n'` one by one with `insert_char` yields the buffer `"Hi\n"` with the
cursor at column 0 of line 1. -/
theorem scenario_a_insert_hi_newline :
    ((((Document.from_str "").insert_char defaultOracle 'H').bind
        (fun d => d.insert_char defaultOracle 'i')).bind
        (fun d => d.insert_char defaultOracle '\n')).map
      (fun d => (d.rope, d.cursor.x, d.cursor.y)) =
      some ("Hi\n".toList, 0, 1) := by decide

/-- C10: each of the four cursor-movement operations mutates at most the
cursor: the rope, the edit history, the retained tree, the parser and
highlighter configuration, the reparse count (no reparse is triggered) and
the error count are all unchanged. -/
theorem move_cursor_pure_cursor_frame (d : Document) :
    cursorOnlyFrame d d.move_cursor_left ∧
    cursorOnlyFrame d d.move_cursor_right ∧
    cursorOnlyFrame d d.move_cursor_up ∧
    cursorOnlyFrame d d.move_cursor_down := by
  unfold cursorOnlyFrame Document.move_cursor_left Document.move_cursor_right
    Document.move_cursor_up Document.move_cursor_down
  refine ⟨?_, ?_, ?_, ?_⟩ <;> (repeat' split) <;> simp

end Moonlit
